import Mathlib

/-!
Shallow embedding of `config_models/models.py` (django-config-models).

The repository defines one abstract Django model, `ConfigurationModel`, with
a query manager `ConfigurationModelManager`.  We embed:

* a configuration subtype (`ConfigClass`): its name, `KEY_FIELDS`, its plain
  (non many-to-many) domain fields, its many-to-many fields and its
  `cache_timeout` (default 600, as in the source);
* model instances (`Inst`): the base fields `id`, `change_date`, `changed_by`,
  `enabled` declared on `ConfigurationModel`, plus association lists for the
  subtype's domain and many-to-many field values (key-field values are
  modelled as strings — their string representations, which is what the cache
  key construction consumes via `unicode(arg)`);
* the database (`Store`): the list of persisted rows in insertion order,
  together with the next auto-increment id.  `order_by('-change_date')[0]`
  is modelled as the first row, in insertion order, attaining the maximal
  `change_date` (a stable descending sort on `change_date`; the SQL backend
  leaves the order of rows with equal `change_date` unspecified and the
  source adds no secondary ordering, so insertion order among ties is the
  concrete tie behaviour we fix);
* the cache (`Cache`): an association list from cache-key names to a cached
  value and its absolute expiry instant; `set` with a timeout stores expiry
  `now + timeout`, `get` at `now` only returns unexpired entries, matching
  the Django cache contract the source relies on;
* the operations `cache_key_name`, `current`, `save`, `is_enabled`,
  `key_values_cache_key_name`, `key_values` (with Django's `values_list`
  including its `flat` restriction), `fields_equal`, `equal_to_current`,
  and the manager's `_current_ids_subquery` / `current_set`.

Fallible operations (`TypeError` from `cache_key_name`, `TypeError` from
`values_list(flat=True)` on several fields, `AttributeError` on attribute
access of a non-model cached value, `AssertionError` from `current_set`)
return `Except String`.
-/

namespace ConfigModels

/-- A Django field value: integer-or-null columns (`id`, `changed_by`, and the
`change_date` timestamp, modelled as a Nat instant), booleans (`enabled`),
plain string-valued domain fields, and many-to-many values (lists). -/
inductive Val where
  | vnum (v : Option Nat)
  | vbool (v : Bool)
  | vstr (v : String)
  | vlist (v : List String)
deriving DecidableEq, Repr

/-- The string representation `unicode(...)` used when building cache keys.
Many-to-many values never appear in key fields; their branch is immaterial. -/
def strOfVal : Val → String
  | .vnum none => "None"
  | .vnum (some n) => toString n
  | .vbool true => "True"
  | .vbool false => "False"
  | .vstr s => s
  | .vlist l => String.intercalate "," l

/-- A concrete `ConfigurationModel` subtype: class name, `KEY_FIELDS`, the
subtype's plain domain fields, its many-to-many fields, and `cache_timeout`
(600 by default, as on `ConfigurationModel`). -/
structure ConfigClass where
  name : String
  KEY_FIELDS : List String := []
  domainFields : List String := []
  m2mFields : List String := []
  cache_timeout : Nat := 600
deriving DecidableEq, Repr

/-- A model instance.  `id` is `none` until the instance is persisted;
`change_date` is set by `auto_now_add` at insert time; `enabled` defaults to
`False`; `vals` holds the subtype's plain domain-field values and `m2mVals`
its many-to-many values. -/
structure Inst where
  id : Option Nat := none
  change_date : Option Nat := none
  changed_by : Option Nat := none
  enabled : Bool := false
  vals : List (String × String) := []
  m2mVals : List (String × List String) := []
deriving DecidableEq, Repr

/-- Embeds `getattr(instance, field_name)` for the fields of a subtype. -/
def getattr (cls : ConfigClass) (i : Inst) (f : String) : Val :=
  if f = "id" then .vnum i.id
  else if f = "change_date" then .vnum i.change_date
  else if f = "changed_by" then .vnum i.changed_by
  else if f = "enabled" then .vbool i.enabled
  else if cls.m2mFields.contains f then .vlist ((i.m2mVals.lookup f).getD [])
  else .vstr ((i.vals.lookup f).getD "")

/-- String representation of an attribute, `unicode(getattr(instance, f))`. -/
def getattrStr (cls : ConfigClass) (i : Inst) (f : String) : String :=
  strOfVal (getattr cls i f)

/-- Embeds `self._meta.get_fields()`: every field together with its
`many_to_many` flag.  The base class declares `id`, `change_date`,
`changed_by` and `enabled`; the subtype adds its own fields. -/
def get_fields (cls : ConfigClass) : List (String × Bool) :=
  [("id", false), ("change_date", false), ("changed_by", false), ("enabled", false)]
    ++ cls.domainFields.map (fun f => (f, false))
    ++ cls.m2mFields.map (fun f => (f, true))

/-- The default `fields_to_ignore` argument of `fields_equal` and
`equal_to_current`. -/
def default_fields_to_ignore : List String := ["id", "change_date", "changed_by"]

/-- Embeds `ConfigurationModel.fields_equal(self, instance, fields_to_ignore)`:
walk every field; many-to-many fields and ignored fields are skipped; any
other field whose values differ makes the result `False`. -/
def fields_equal (cls : ConfigClass) (self inst : Inst)
    (fields_to_ignore : List String) : Bool :=
  (get_fields cls).all fun p =>
    p.2 || fields_to_ignore.contains p.1
        || (getattr cls inst p.1 == getattr cls self p.1)

/-- The database table: persisted rows in insertion order, plus the next
auto-increment identifier the backend will assign. -/
structure Store where
  rows : List Inst := []
  nextId : Nat := 1
deriving DecidableEq, Repr

/-- The `id` of a persisted row (0 for the impossible unpersisted case). -/
def idD (r : Inst) : Nat := r.id.getD 0

/-- The `change_date` of a persisted row. -/
def dateD (r : Inst) : Nat := r.change_date.getD 0

/-- The row returned by `.order_by('-change_date')[0]`: the first row, in
insertion order, whose `change_date` is maximal (`none` on an empty
queryset, where the source's `[0]` raises `IndexError` and `current` falls
into its `except` branch). -/
def pickCurrent : List Inst → Option Inst
  | [] => none
  | r :: rs =>
    match pickCurrent rs with
    | none => some r
    | some m => if dateD m > dateD r then some m else some r

/-- Embeds `filter(**key_dict)` where `key_dict = dict(zip(KEY_FIELDS, args))`:
`zip` truncates at the shorter list, so surplus positional arguments are
silently dropped when `KEY_FIELDS` is exhausted. -/
def matchesKey (cls : ConfigClass) (args : List String) (r : Inst) : Bool :=
  (cls.KEY_FIELDS.zip args).all fun p => getattr cls r p.1 == .vstr p.2

/-- Embeds `cls(**key_dict)`: a fresh, unpersisted instance whose key fields carry
the given values and whose other fields keep their defaults
(`enabled=False`, no id, no change date). -/
def newInst (cls : ConfigClass) (args : List String) : Inst :=
  { vals := cls.KEY_FIELDS.zip args }

/-- Values held in the (single, shared) cache: either a model instance
(stored by `current`) or a `key_values` result list. -/
inductive KVVal where
  | tuples (l : List (List String))
  | flat (l : List String)
deriving DecidableEq, Repr

/-- A cached object. -/
inductive CacheVal where
  | inst (i : Inst)
  | kv (v : KVVal)
deriving DecidableEq, Repr

/-- The configured Django cache: name-keyed entries with absolute expiry. -/
structure Cache where
  entries : List (String × CacheVal × Nat) := []
deriving DecidableEq, Repr

/-- Raw entry lookup (ignores expiry). -/
def Cache.lookup (c : Cache) (k : String) : Option (CacheVal × Nat) :=
  c.entries.lookup k

/-- Embeds `cache.get(k)` at instant `now`: an entry is served only until its
expiry. -/
def Cache.get (c : Cache) (now : Nat) (k : String) : Option CacheVal :=
  match c.lookup k with
  | some p => if now < p.2 then some p.1 else none
  | none => none

/-- Embeds `cache.set(k, v, timeout)` at instant `now` stores expiry
`now + timeout`; here `exp` is already the absolute expiry. -/
def Cache.set (c : Cache) (k : String) (v : CacheVal) (exp : Nat) : Cache :=
  ⟨(k, v, exp) :: c.entries.filter (fun p => p.1 != k)⟩

/-- Embeds `cache.delete(k)`. -/
def Cache.delete (c : Cache) (k : String) : Cache :=
  ⟨c.entries.filter (fun p => p.1 != k)⟩

/-- Embeds `ConfigurationModel.cache_key_name(cls, *args)`: raises `TypeError` on an
argument-count mismatch, but only when `KEY_FIELDS` is non-empty; with empty
`KEY_FIELDS` the arguments are ignored entirely. -/
def cache_key_name (cls : ConfigClass) (args : List String) : Except String String :=
  if cls.KEY_FIELDS ≠ [] then
    if args.length ≠ cls.KEY_FIELDS.length then
      .error "TypeError"
    else
      .ok ("configuration/" ++ cls.name ++ "/current/" ++ String.intercalate "," args)
  else
    .ok ("configuration/" ++ cls.name ++ "/current")

/-- The database-fallback body of `current`:
`try: cls.objects.filter(**key_dict).order_by('-change_date')[0]
 except IndexError: cls(**key_dict)`. -/
def resolve (cls : ConfigClass) (args : List String) (st : Store) : Inst :=
  match pickCurrent (st.rows.filter (fun r => matchesKey cls args r)) with
  | some r => r
  | none => newInst cls args

/-- Embeds `ConfigurationModel.current(cls, *args)`: cache lookup first; on a miss,
query the rows matching the key dict ordered by recency and take the first,
or construct (without persisting) `cls(**key_dict)`; cache the resolved
value for `cache_timeout` and return it. -/
def current (cls : ConfigClass) (args : List String) (st : Store) (c : Cache)
    (now : Nat) : Except String (CacheVal × Cache) :=
  match cache_key_name cls args with
  | .error e => .error e
  | .ok key =>
    match Cache.get c now key with
    | some cached => .ok (cached, c)
    | none =>
      let cur := resolve cls args st
      .ok (.inst cur, Cache.set c key (.inst cur) (now + cls.cache_timeout))

/-- Attribute access on a cached value: the source would raise
`AttributeError` if a non-instance ever sat under an instance cache key. -/
def instOf : CacheVal → Except String Inst
  | .inst i => .ok i
  | .kv _ => .error "AttributeError"

/-- Embeds `ConfigurationModel.is_enabled(cls, *key_fields)`: the `enabled` field of
the resolved current entry. -/
def is_enabled (cls : ConfigClass) (args : List String) (st : Store) (c : Cache)
    (now : Nat) : Except String (Bool × Cache) :=
  match current cls args st c now with
  | .error e => .error e
  | .ok (v, c') => (instOf v).map fun i => (i.enabled, c')

/-- Embeds `ConfigurationModel.key_values_cache_key_name(cls, *key_fields)`:
`key_fields or cls.KEY_FIELDS`, comma-joined.  Note that the `flat` flag of
`key_values` plays no part in this name. -/
def key_values_cache_key_name (cls : ConfigClass) (key_fields : List String) : String :=
  "configuration/" ++ cls.name ++ "/key_values/" ++
    String.intercalate "," (if key_fields.isEmpty then cls.KEY_FIELDS else key_fields)

/-- The concrete (non many-to-many) fields of a subtype, in model order:
the projection Django's `values_list()` falls back to when it is called
with no field names. -/
def concreteFields (cls : ConfigClass) : List String :=
  ((get_fields cls).filter (fun p => !p.2)).map (fun p => p.1)

/-- Django's `values_list(*kf, flat=flat).order_by().distinct()` over the
whole table: the distinct projections of every stored row (order among
distinct combinations is immaterial to the claims; `List.dedup` retains one
occurrence of each).  Called with no fields, it projects every concrete
(non many-to-many) field of the model.  `flat=True` raises `TypeError`
only when more than one field was passed; flattening yields each row's
first projected value. -/
def values_list (cls : ConfigClass) (kf : List String) (flat : Bool)
    (st : Store) : Except String KVVal :=
  if flat ∧ kf.length > 1 then
    .error "TypeError"
  else
    let fields := if kf.isEmpty then concreteFields cls else kf
    let combos := (st.rows.map (fun r => fields.map (fun f => getattrStr cls r f))).dedup
    if flat then .ok (.flat (combos.map (fun t => t.headD "")))
    else .ok (.tuples combos)

/-- Embeds `ConfigurationModel.key_values(cls, *key_fields, flat=...)`: cache-first
under `key_values_cache_key_name` (which ignores `flat`); on a miss the
distinct combinations over every stored row are computed, cached for
`cache_timeout`, and returned. -/
def key_values (cls : ConfigClass) (key_fields : List String) (flat : Bool)
    (st : Store) (c : Cache) (now : Nat) : Except String (CacheVal × Cache) :=
  let kf := if key_fields.isEmpty then cls.KEY_FIELDS else key_fields
  let ckey := key_values_cache_key_name cls key_fields
  match Cache.get c now ckey with
  | some cached => .ok (cached, c)
  | none =>
    match values_list cls kf flat st with
    | .error e => .error e
    | .ok v => .ok (.kv v, Cache.set c ckey (.kv v) (now + cls.cache_timeout))

/-- Embeds `[getattr(self, key) for key in self.KEY_FIELDS]` (as the strings their
`unicode(...)` representations yield): the key tuple of an instance. -/
def keyArgsOf (cls : ConfigClass) (i : Inst) : List String :=
  cls.KEY_FIELDS.map (fun k => getattrStr cls i k)

/-- Embeds `ConfigurationModel.save(self, ...)`: clear the primary key, insert (the
backend assigns the next id and `auto_now_add` stamps `change_date` with the
current instant), then delete the current-value cache entry for this
instance's key tuple and, when `KEY_FIELDS` is non-empty, the `key_values`
cache entry as well. -/
def save (cls : ConfigClass) (i : Inst) (st : Store) (c : Cache) (now : Nat) :
    Except String (Inst × Store × Cache) :=
  let saved : Inst := { i with id := some st.nextId, change_date := some now }
  let st' : Store := { rows := st.rows ++ [saved], nextId := st.nextId + 1 }
  match cache_key_name cls (keyArgsOf cls saved) with
  | .error e => .error e
  | .ok key =>
    let c' := Cache.delete c key
    let c'' :=
      if cls.KEY_FIELDS ≠ [] then Cache.delete c' (key_values_cache_key_name cls [])
      else c'
    .ok (saved, st', c'')

/-- The payload of `equal_to_current`'s `json` argument: the keyword
arguments `cls(**json)` would receive (absent keys keep the model
defaults). -/
structure Json where
  enabled : Option Bool := none
  changed_by : Option Nat := none
  vals : List (String × String) := []
  m2m : List (String × List String) := []
deriving DecidableEq, Repr

/-- Embeds `cls(**json)`: construct an unpersisted instance from the payload. -/
def mkInst (_cls : ConfigClass) (j : Json) : Inst :=
  { enabled := j.enabled.getD false, changed_by := j.changed_by,
    vals := j.vals, m2mVals := j.m2m }

/-- The `new_instance` of `equal_to_current`: the payload with its
many-to-many keys popped, passed to `cls(**json)`. -/
def candidateOf (cls : ConfigClass) (j : Json) : Inst :=
  mkInst cls { j with m2m := [] }

/-- Embeds `ConfigurationModel.equal_to_current(cls, json, fields_to_ignore)`:
strip many-to-many keys from the payload, build `cls(**json)`, resolve
`current` for the candidate's key tuple, and compare field-by-field —
unless the resolved current entry has no id, in which case the answer is
`False`. -/
def equal_to_current (cls : ConfigClass) (j : Json) (fields_to_ignore : List String)
    (st : Store) (c : Cache) (now : Nat) : Except String (Bool × Cache) :=
  let ni := candidateOf cls j
  match current cls (keyArgsOf cls ni) st c now with
  | .error e => .error e
  | .ok (v, c') =>
    match instOf v with
    | .error e => .error e
    | .ok cur =>
      if cur.id.isSome then .ok (fields_equal cls cur ni fields_to_ignore, c')
      else .ok (false, c')

/-- The key tuple of a row, as the database groups it:
`GROUP BY key_fields`. -/
def keyOf (cls : ConfigClass) (r : Inst) : List Val :=
  cls.KEY_FIELDS.map (getattr cls r)

/-- Embeds `MAX(id)` over a group of rows. -/
def maxIdOf : List Inst → Option Nat
  | [] => none
  | r :: rs =>
    match maxIdOf rs with
    | none => some (idD r)
    | some m => some (max (idD r) m)

/-- Embeds `ConfigurationModelManager._current_ids_subquery`:
`SELECT MAX(id) FROM table GROUP BY key_fields` — one maximal id per
distinct key tuple. -/
def currentIds (cls : ConfigClass) (st : Store) : List Nat :=
  ((st.rows.map (keyOf cls)).dedup).filterMap fun k =>
    maxIdOf (st.rows.filter (fun r => keyOf cls r == k))

/-- Embeds `ConfigurationModelManager.current_set`: asserts `KEY_FIELDS` non-empty,
then keeps the rows whose id the grouped-maximum subquery selected. -/
def current_set (cls : ConfigClass) (st : Store) : Except String (List Inst) :=
  if cls.KEY_FIELDS = [] then .error "AssertionError"
  else .ok (st.rows.filter (fun r => (currentIds cls st).contains (idD r)))

/-- A key field that is an ordinary stored column of the subtype: not one of
the base fields and not many-to-many.  (Django enforces this: `KEY_FIELDS`
name concrete columns of the concrete model.) -/
def plainField (cls : ConfigClass) (f : String) : Prop :=
  f ≠ "id" ∧ f ≠ "change_date" ∧ f ≠ "changed_by" ∧ f ≠ "enabled" ∧
    cls.m2mFields.contains f = false

instance (cls : ConfigClass) (f : String) : Decidable (plainField cls f) := by
  unfold plainField; infer_instance

instance {ε α : Type} [DecidableEq ε] [DecidableEq α] : DecidableEq (Except ε α) :=
  fun a b =>
  match a, b with
  | .ok x, .ok y =>
    if h : x = y then .isTrue (by rw [h])
    else .isFalse (by intro hc; injection hc; exact h ‹_›)
  | .error e, .error f =>
    if h : e = f then .isTrue (by rw [h])
    else .isFalse (by intro hc; injection hc; exact h ‹_›)
  | .ok _, .error _ => .isFalse (by intro hc; exact Except.noConfusion hc)
  | .error _, .ok _ => .isFalse (by intro hc; exact Except.noConfusion hc)

/-! ### Concrete fixtures

A subtype keyed on a single `course` field, a subtype with no key fields,
and a two-field subtype whose key values contain commas; together with
stores exercising colliding and strictly increasing `change_date`s. -/

/-- A subtype with `KEY_FIELDS = ("course",)`. -/
def courseCls : ConfigClass :=
  { name := "Course", KEY_FIELDS := ["course"], domainFields := ["course"] }

/-- First inserted row for course `X`, `change_date` 5 (colliding). -/
def rowTieA : Inst :=
  { id := some 1, change_date := some 5, enabled := true, vals := [("course", "X")] }

/-- Second inserted row for course `X`, same `change_date` 5. -/
def rowTieB : Inst :=
  { id := some 2, change_date := some 5, enabled := false, vals := [("course", "X")] }

/-- Store holding the two timestamp-colliding rows. -/
def storeTie : Store := { rows := [rowTieA, rowTieB], nextId := 3 }

/-- First row for course `X` at `change_date` 1. -/
def rowSeqA : Inst :=
  { id := some 1, change_date := some 1, enabled := true, vals := [("course", "X")] }

/-- Second row for course `X` at `change_date` 2. -/
def rowSeqB : Inst :=
  { id := some 2, change_date := some 2, enabled := false, vals := [("course", "X")] }

/-- Store holding the two strictly ordered rows. -/
def storeSeq : Store := { rows := [rowSeqA, rowSeqB], nextId := 3 }

/-- An unsaved first write (`enabled=True`) for course `X`. -/
def writeOne : Inst := { enabled := true, vals := [("course", "X")] }

/-- An unsaved second write (`enabled=False`) for course `X`. -/
def writeTwo : Inst := { enabled := false, vals := [("course", "X")] }

/-- A subtype with empty `KEY_FIELDS`. -/
def thingCls : ConfigClass := { name := "Thing" }

/-- A subtype keyed on two fields `a`, `b`. -/
def pairCls : ConfigClass :=
  { name := "Pair", KEY_FIELDS := ["a", "b"], domainFields := ["a", "b"] }

/-- A candidate whose key tuple is `("x,y", "z")`. -/
def pairInst : Inst := { vals := [("a", "x,y"), ("b", "z")] }

/-- A persisted row for the distinct key tuple `("x", "y,z")`. -/
def otherInst : Inst :=
  { id := some 9, change_date := some 0, vals := [("a", "x"), ("b", "y,z")] }

/-- A cache holding the current-value entry for `("x", "y,z")` — whose name
collides with the entry name of `("x,y", "z")`. -/
def collidingCache : Cache :=
  ⟨[("configuration/Pair/current/x,y,z", .inst otherInst, 100)]⟩

/-! ### Association-list and cache lemmas -/

theorem lookup_filter_ne {β : Type} (l : List (String × β)) (k k' : String)
    (h : k' ≠ k) : (l.filter (fun p => p.1 != k)).lookup k' = l.lookup k' := by
  induction l with
  | nil => rfl
  | cons p l ih =>
    by_cases hp : p.1 = k
    · have h1 : (p.1 != k) = false := by simp [hp]
      have h2 : (k' == p.1) = false := by simp [hp, h]
      simp [List.filter, h1, List.lookup, h2, ih]
    · have h1 : (p.1 != k) = true := by simp [hp]
      simp only [List.filter, h1, List.lookup]
      by_cases hk : k' = p.1
      · simp [hk]
      · have h2 : (k' == p.1) = false := by simp [hk]
        simp [h2, ih]

theorem lookup_filter_self {β : Type} (l : List (String × β)) (k : String) :
    (l.filter (fun p => p.1 != k)).lookup k = none := by
  induction l with
  | nil => rfl
  | cons p l ih =>
    by_cases hp : p.1 = k
    · have h1 : (p.1 != k) = false := by simp [hp]
      simp [List.filter, h1, ih]
    · have h1 : (p.1 != k) = true := by simp [hp]
      have h2 : (k == p.1) = false := by simpa using Ne.symm hp
      simp [List.filter, h1, List.lookup, h2, ih]

theorem Cache.lookup_set_self (c : Cache) (k : String) (v : CacheVal) (e : Nat) :
    (Cache.set c k v e).lookup k = some (v, e) := by
  simp [Cache.set, Cache.lookup, List.lookup]

theorem Cache.lookup_set_ne (c : Cache) (k k' : String) (v : CacheVal) (e : Nat)
    (h : k' ≠ k) : (Cache.set c k v e).lookup k' = c.lookup k' := by
  have h2 : (k' == k) = false := by simp [h]
  simp only [Cache.set, Cache.lookup, List.lookup, h2]
  exact lookup_filter_ne _ _ _ h

theorem Cache.lookup_delete_self (c : Cache) (k : String) :
    (Cache.delete c k).lookup k = none := by
  simpa [Cache.delete, Cache.lookup] using lookup_filter_self c.entries k

theorem Cache.lookup_delete_ne (c : Cache) (k k' : String) (h : k' ≠ k) :
    (Cache.delete c k).lookup k' = c.lookup k' := by
  simpa [Cache.delete, Cache.lookup] using lookup_filter_ne c.entries k k' h

theorem Cache.get_of_lookup_none (c : Cache) (now : Nat) (k : String)
    (h : c.lookup k = none) : c.get now k = none := by
  simp [Cache.get, h]

theorem Cache.get_set_self (c : Cache) (k : String) (v : CacheVal) (e : Nat)
    (now : Nat) (h : now < e) : (Cache.set c k v e).get now k = some v := by
  simp [Cache.get, Cache.lookup_set_self, h]

theorem Cache.get_delete_self (c : Cache) (now : Nat) (k : String) :
    (Cache.delete c k).get now k = none :=
  Cache.get_of_lookup_none _ _ _ (Cache.lookup_delete_self c k)

/-! ### `pickCurrent` and `maxIdOf` lemmas -/

theorem pickCurrent_eq_none {l : List Inst} : pickCurrent l = none ↔ l = [] := by
  cases l with
  | nil => simp [pickCurrent]
  | cons r rs =>
    simp only [pickCurrent]
    cases hp : pickCurrent rs with
    | none => simp
    | some m =>
      by_cases hd : dateD m > dateD r <;> simp [hd]

theorem pickCurrent_mem {l : List Inst} {r : Inst} (h : pickCurrent l = some r) :
    r ∈ l := by
  induction l with
  | nil => simp [pickCurrent] at h
  | cons a l ih =>
    simp only [pickCurrent] at h
    cases hp : pickCurrent l with
    | none => rw [hp] at h; simp_all
    | some m =>
      rw [hp] at h
      by_cases hd : dateD m > dateD a
      · simp [hd] at h; subst h; exact List.mem_cons_of_mem _ (ih hp)
      · simp [hd] at h; subst h; exact List.mem_cons_self _ _

theorem pickCurrent_le {l : List Inst} {r : Inst} (h : pickCurrent l = some r) :
    ∀ x ∈ l, dateD x ≤ dateD r := by
  induction l generalizing r with
  | nil => simp
  | cons a l ih =>
    simp only [pickCurrent] at h
    cases hp : pickCurrent l with
    | none =>
      rw [hp] at h
      have hl : l = [] := pickCurrent_eq_none.mp hp
      subst hl
      simp at h
      subst h
      intro x hx
      simp at hx
      subst hx
      exact Nat.le_refl _
    | some m =>
      rw [hp] at h
      intro x hx
      rcases List.mem_cons.mp hx with hxa | hxl
      · subst hxa
        by_cases hd : dateD m > dateD x
        · simp [hd] at h; subst h; omega
        · simp [hd] at h; subst h; omega
      · have hxm := ih hp x hxl
        by_cases hd : dateD m > dateD a
        · simp [hd] at h; subst h; omega
        · simp [hd] at h; subst h; omega

theorem pickCurrent_append_strict (l : List Inst) (s : Inst)
    (h : ∀ x ∈ l, dateD x < dateD s) : pickCurrent (l ++ [s]) = some s := by
  induction l with
  | nil => rfl
  | cons a l ih =>
    have ha : dateD a < dateD s := h a (List.mem_cons_self _ _)
    have ih' := ih (fun x hx => h x (List.mem_cons_of_mem _ hx))
    rw [List.cons_append]
    simp only [pickCurrent]
    rw [ih']
    simp [ha]

theorem maxIdOf_eq_none {l : List Inst} : maxIdOf l = none ↔ l = [] := by
  cases l with
  | nil => simp [maxIdOf]
  | cons r rs =>
    simp only [maxIdOf]
    cases maxIdOf rs <;> simp

theorem maxIdOf_le {l : List Inst} {m : Nat} (h : maxIdOf l = some m) :
    ∀ x ∈ l, idD x ≤ m := by
  induction l generalizing m with
  | nil => simp
  | cons a l ih =>
    simp only [maxIdOf] at h
    cases hp : maxIdOf l with
    | none =>
      rw [hp] at h
      simp at h
      have hl : l = [] := maxIdOf_eq_none.mp hp
      subst hl
      intro x hx
      simp at hx
      subst hx
      omega
    | some m' =>
      rw [hp] at h
      simp at h
      intro x hx
      rcases List.mem_cons.mp hx with hxa | hxl
      · subst hxa; omega
      · have := ih hp x hxl; omega

theorem maxIdOf_attained {l : List Inst} {m : Nat} (h : maxIdOf l = some m) :
    ∃ x ∈ l, idD x = m := by
  induction l generalizing m with
  | nil => simp [maxIdOf] at h
  | cons a l ih =>
    simp only [maxIdOf] at h
    cases hp : maxIdOf l with
    | none => rw [hp] at h; simp at h; exact ⟨a, List.mem_cons_self _ _, h⟩
    | some m' =>
      rw [hp] at h
      simp at h
      by_cases hc : idD a ≤ m'
      · rcases ih hp with ⟨x, hx, hxm⟩
        refine ⟨x, List.mem_cons_of_mem _ hx, ?_⟩
        omega
      · exact ⟨a, List.mem_cons_self _ _, by omega⟩

theorem maxIdOf_eq {l : List Inst} {r : Inst} (hr : r ∈ l)
    (hmax : ∀ x ∈ l, idD x ≤ idD r) : maxIdOf l = some (idD r) := by
  cases hp : maxIdOf l with
  | none =>
    rw [maxIdOf_eq_none.mp hp] at hr
    simp at hr
  | some m =>
    rcases maxIdOf_attained hp with ⟨x, hx, hxm⟩
    have h1 : m ≤ idD r := hxm ▸ hmax x hx
    have h2 : idD r ≤ m := maxIdOf_le hp r hr
    rw [Nat.le_antisymm h2 h1]

/-! ### Field access and key-matching lemmas -/

theorem getattr_plain (cls : ConfigClass) (i : Inst) (f : String)
    (h : plainField cls f) :
    getattr cls i f = .vstr ((i.vals.lookup f).getD "") := by
  obtain ⟨h1, h2, h3, h4, h5⟩ := h
  have h5' : f ∉ cls.m2mFields := by simpa using h5
  simp [getattr, h1, h2, h3, h4, h5']

theorem getattrStr_plain (cls : ConfigClass) (i : Inst) (f : String)
    (h : plainField cls f) :
    getattrStr cls i f = (i.vals.lookup f).getD "" := by
  rw [getattrStr, getattr_plain cls i f h]
  rfl

theorem getattrStr_update (cls : ConfigClass) (i : Inst) (f : String)
    (h : plainField cls f) (a b : Option Nat) :
    getattrStr cls { i with id := a, change_date := b } f = getattrStr cls i f := by
  rw [getattrStr_plain _ _ _ h, getattrStr_plain _ _ _ h]

theorem keyArgsOf_update (cls : ConfigClass) (i : Inst) (a b : Option Nat)
    (h : ∀ f ∈ cls.KEY_FIELDS, plainField cls f) :
    keyArgsOf cls { i with id := a, change_date := b } = keyArgsOf cls i := by
  unfold keyArgsOf
  exact List.map_congr_left fun f hf => getattrStr_update cls i f (h f hf) a b

theorem matchesKey_keyArgsOf (cls : ConfigClass) (r : Inst)
    (h : ∀ f ∈ cls.KEY_FIELDS, plainField cls f) :
    matchesKey cls (keyArgsOf cls r) r = true := by
  unfold matchesKey keyArgsOf
  have haux : ∀ l : List String, (∀ f ∈ l, plainField cls f) →
      ((l.zip (l.map fun k => getattrStr cls r k)).all
        fun p => getattr cls r p.1 == .vstr p.2) = true := by
    intro l hl
    induction l with
    | nil => rfl
    | cons f fs ih =>
      have hf := hl f (List.mem_cons_self _ _)
      simp only [List.map_cons, List.zip_cons_cons, List.all_cons, Bool.and_eq_true]
      refine ⟨?_, ih fun g hg => hl g (List.mem_cons_of_mem _ hg)⟩
      rw [getattr_plain cls r f hf, getattrStr_plain cls r f hf]
      simp
  exact haux cls.KEY_FIELDS h

theorem matchesKey_iff (cls : ConfigClass) (args : List String) (x : Inst)
    (hlen : args.length = cls.KEY_FIELDS.length) :
    matchesKey cls args x = true ↔ keyOf cls x = args.map Val.vstr := by
  unfold matchesKey keyOf
  have haux : ∀ (l : List String) (ar : List String), ar.length = l.length →
      (((l.zip ar).all fun p => getattr cls x p.1 == .vstr p.2) = true ↔
        l.map (getattr cls x) = ar.map Val.vstr) := by
    intro l
    induction l with
    | nil =>
      intro ar h
      cases ar with
      | nil => simp
      | cons a as => simp at h
    | cons f fs ih =>
      intro ar h
      cases ar with
      | nil => simp at h
      | cons a as =>
        simp only [List.zip_cons_cons, List.all_cons, Bool.and_eq_true, List.map_cons,
          beq_iff_eq]
        rw [ih as (by simpa using h)]
        constructor
        · rintro ⟨h1, h2⟩
          rw [h1, h2]
        · intro hh
          injection hh with h1 h2
          exact ⟨h1, h2⟩
  exact haux cls.KEY_FIELDS args hlen

/-! ### Equations for the cache-key construction and the operations -/

/-- The string `cache_key_name` produces when it does not raise. -/
def currentKeyName (cls : ConfigClass) (args : List String) : String :=
  if cls.KEY_FIELDS = [] then "configuration/" ++ cls.name ++ "/current"
  else "configuration/" ++ cls.name ++ "/current/" ++ String.intercalate "," args

theorem cache_key_name_eq (cls : ConfigClass) (args : List String)
    (h : args.length = cls.KEY_FIELDS.length) :
    cache_key_name cls args = .ok (currentKeyName cls args) := by
  unfold cache_key_name currentKeyName
  by_cases hk : cls.KEY_FIELDS = [] <;> simp [hk, h]

theorem cache_key_name_error (cls : ConfigClass) (args : List String)
    (h1 : cls.KEY_FIELDS ≠ []) (h2 : args.length ≠ cls.KEY_FIELDS.length) :
    cache_key_name cls args = .error "TypeError" := by
  simp [cache_key_name, h1, h2]

theorem current_hit (cls : ConfigClass) (args : List String) (st : Store)
    (c : Cache) (now : Nat) (key : String) (v : CacheVal)
    (hkey : cache_key_name cls args = .ok key)
    (hv : Cache.get c now key = some v) :
    current cls args st c now = .ok (v, c) := by
  unfold current
  rw [hkey]
  simp [hv]

theorem current_miss (cls : ConfigClass) (args : List String) (st : Store)
    (c : Cache) (now : Nat) (key : String)
    (hkey : cache_key_name cls args = .ok key)
    (hm : Cache.get c now key = none) :
    current cls args st c now =
      .ok (.inst (resolve cls args st),
           Cache.set c key (.inst (resolve cls args st)) (now + cls.cache_timeout)) := by
  unfold current
  rw [hkey]
  simp [hm]

theorem current_error (cls : ConfigClass) (args : List String) (st : Store)
    (c : Cache) (now : Nat) (e : String)
    (hkey : cache_key_name cls args = .error e) :
    current cls args st c now = .error e := by
  unfold current
  rw [hkey]

theorem resolve_of_empty (cls : ConfigClass) (args : List String) (st : Store)
    (h : st.rows.filter (fun r => matchesKey cls args r) = []) :
    resolve cls args st = newInst cls args := by
  unfold resolve
  rw [h]
  rfl

theorem resolve_of_pick (cls : ConfigClass) (args : List String) (st : Store)
    (r : Inst)
    (h : pickCurrent (st.rows.filter (fun r => matchesKey cls args r)) = some r) :
    resolve cls args st = r := by
  unfold resolve
  rw [h]

theorem save_eq (cls : ConfigClass) (i : Inst) (st : Store) (c : Cache) (now : Nat) :
    save cls i st c now =
      .ok ({ i with id := some st.nextId, change_date := some now },
           { rows := st.rows ++ [{ i with id := some st.nextId, change_date := some now }],
             nextId := st.nextId + 1 },
           if cls.KEY_FIELDS ≠ [] then
             Cache.delete
               (Cache.delete c
                 (currentKeyName cls
                   (keyArgsOf cls { i with id := some st.nextId, change_date := some now })))
               (key_values_cache_key_name cls [])
           else
             Cache.delete c
               (currentKeyName cls
                 (keyArgsOf cls { i with id := some st.nextId, change_date := some now }))) := by
  have hk := cache_key_name_eq cls
    (keyArgsOf cls { i with id := some st.nextId, change_date := some now })
    (by simp [keyArgsOf])
  simp only [save, hk]

/-! ### Claim theorems -/

/-- C3: `current` consults the cache first and returns a hit as-is; on a
miss with no stored rows matching the key tuple it returns the newly
constructed, non-persisted `cls(**key_dict)` instance (identifier unset,
`enabled=False`, key fields pre-populated with the given values); in every
miss case it stores the resolved value in the cache with expiry
`cache_timeout` (default 600) before returning it, so a second call within
the timeout and without an intervening write is served from the cache. -/
theorem C3_current_cache_semantics (cls : ConfigClass) (args : List String)
    (st : Store) (c : Cache) (now : Nat) (key : String)
    (hkey : cache_key_name cls args = .ok key) :
    (∀ v, Cache.get c now key = some v → current cls args st c now = .ok (v, c)) ∧
    (Cache.get c now key = none →
      st.rows.filter (fun r => matchesKey cls args r) = [] →
      current cls args st c now =
        .ok (.inst (newInst cls args),
             Cache.set c key (.inst (newInst cls args)) (now + cls.cache_timeout)) ∧
      (newInst cls args).id = none ∧ (newInst cls args).enabled = false ∧
      (newInst cls args).vals = cls.KEY_FIELDS.zip args) ∧
    (Cache.get c now key = none →
      ∃ v, current cls args st c now =
          .ok (.inst v, Cache.set c key (.inst v) (now + cls.cache_timeout)) ∧
        ∀ (now' : Nat) (st₂ : Store), now' < now + cls.cache_timeout →
          current cls args st₂ (Cache.set c key (.inst v) (now + cls.cache_timeout)) now' =
            .ok (.inst v, Cache.set c key (.inst v) (now + cls.cache_timeout))) ∧
    (∀ n : String, ({ name := n } : ConfigClass).cache_timeout = 600) := by
  refine ⟨fun v hv => current_hit cls args st c now key v hkey hv, ?_, ?_, fun _ => rfl⟩
  · intro hm hempty
    refine ⟨?_, rfl, rfl, rfl⟩
    rw [current_miss cls args st c now key hkey hm, resolve_of_empty cls args st hempty]
  · intro hm
    refine ⟨resolve cls args st, current_miss cls args st c now key hkey hm, ?_⟩
    intro now' st₂ hlt
    exact current_hit cls args st₂ _ now' key _ hkey (Cache.get_set_self c key _ _ now' hlt)

/-- Witness for C3 at a concrete input: an empty store and empty cache; the
constructed instance is returned and cached under the computed name with
expiry `0 + 600`. -/
theorem C3_current_cache_semantics_witness :
    current courseCls ["X"] { rows := [], nextId := 1 } ⟨[]⟩ 0 =
      .ok (.inst (newInst courseCls ["X"]),
           Cache.set ⟨[]⟩ "configuration/Course/current/X"
             (.inst (newInst courseCls ["X"])) (0 + courseCls.cache_timeout)) ∧
    (newInst courseCls ["X"]).id = none ∧
    (newInst courseCls ["X"]).enabled = false ∧
    (newInst courseCls ["X"]).vals = courseCls.KEY_FIELDS.zip ["X"] :=
  (C3_current_cache_semantics courseCls ["X"] { rows := [], nextId := 1 } ⟨[]⟩ 0
    "configuration/Course/current/X" (by decide)).2.1 (by decide) (by decide)

/-- C4: `save` unconditionally clears the primary key and inserts: the
saved row carries the store's fresh `nextId` (distinct from every existing
row's id) and the stamped `change_date`, regardless of the identifier the
instance carried before; the store grows by exactly that appended row; and
the cache loses the current-value entry for the instance's key tuple plus —
exactly when `KEY_FIELDS` is non-empty — the `key_values` entry. -/
theorem C4_save_always_inserts (cls : ConfigClass) (i : Inst) (st : Store)
    (c : Cache) (now : Nat)
    (hids : ∀ r ∈ st.rows, idD r < st.nextId) :
    ∃ saved st' c₂, save cls i st c now = .ok (saved, st', c₂) ∧
      saved = { i with id := some st.nextId, change_date := some now } ∧
      saved.id = some st.nextId ∧
      (∀ r ∈ st.rows, r.id ≠ saved.id) ∧
      st'.rows = st.rows ++ [saved] ∧ st'.nextId = st.nextId + 1 ∧
      ∀ key, cache_key_name cls (keyArgsOf cls saved) = .ok key →
        c₂ = if cls.KEY_FIELDS ≠ [] then
               Cache.delete (Cache.delete c key) (key_values_cache_key_name cls [])
             else Cache.delete c key := by
  refine ⟨_, _, _, save_eq cls i st c now, rfl, rfl, ?_, rfl, rfl, ?_⟩
  · intro r hr
    have hlt := hids r hr
    cases hid : r.id with
    | none => simp
    | some m =>
      intro hcon
      injection hcon with hm
      simp [idD, hid, hm] at hlt
  · intro key hkey
    rw [cache_key_name_eq cls _ (by simp [keyArgsOf])] at hkey
    injection hkey with hkey
    rw [hkey]

/-- Witness for C4 at a concrete input: saving an instance that was loaded
from an existing row (it carries `id=1`) inserts a second row with the
fresh id 2 instead of updating row 1. -/
theorem C4_save_always_inserts_witness :
    ∃ saved st' c₂,
      save courseCls rowSeqA { rows := [rowSeqA], nextId := 2 } ⟨[]⟩ 7 =
        .ok (saved, st', c₂) ∧
      saved = { rowSeqA with id := some 2, change_date := some 7 } ∧
      saved.id = some 2 ∧
      (∀ r ∈ ({ rows := [rowSeqA], nextId := 2 } : Store).rows, r.id ≠ saved.id) ∧
      st'.rows = [rowSeqA] ++ [saved] ∧ st'.nextId = 3 ∧
      ∀ key, cache_key_name courseCls (keyArgsOf courseCls saved) = .ok key →
        c₂ = if courseCls.KEY_FIELDS ≠ [] then
               Cache.delete (Cache.delete ⟨[]⟩ key)
                 (key_values_cache_key_name courseCls [])
             else Cache.delete ⟨[]⟩ key :=
  C4_save_always_inserts courseCls rowSeqA { rows := [rowSeqA], nextId := 2 } ⟨[]⟩ 7
    (by decide)

/-- C5 fails on the code as stated: with empty `KEY_FIELDS`, a surplus
positional argument does not raise an argument-count error — `current`
succeeds, silently ignoring the extra argument. -/
theorem C5_counterexample :
    thingCls.KEY_FIELDS = [] ∧
    current thingCls ["extra"] { rows := [], nextId := 1 } ⟨[]⟩ 0 =
      .ok (.inst (newInst thingCls ["extra"]),
           Cache.set ⟨[]⟩ "configuration/Thing/current"
             (.inst (newInst thingCls ["extra"])) 600) := by
  decide

/-- C5 amended: when `KEY_FIELDS` is non-empty, calling `current` with an
argument count different from `len(KEY_FIELDS)` raises `TypeError`; when
`KEY_FIELDS` is empty, any positional arguments are ignored and the call
behaves exactly like the zero-argument call (no error). -/
theorem C5_argument_count (cls : ConfigClass) (args : List String) (st : Store)
    (c : Cache) (now : Nat) :
    (cls.KEY_FIELDS ≠ [] → args.length ≠ cls.KEY_FIELDS.length →
      current cls args st c now = .error "TypeError") ∧
    (cls.KEY_FIELDS = [] →
      current cls args st c now = current cls [] st c now) := by
  constructor
  · intro h1 h2
    exact current_error cls args st c now _ (cache_key_name_error cls args h1 h2)
  · intro h
    have hmk : st.rows.filter (fun r => matchesKey cls args r) =
        st.rows.filter (fun r => matchesKey cls [] r) := by
      apply List.filter_congr
      intro x _
      simp [matchesKey, h]
    have hni : newInst cls args = newInst cls [] := by
      simp [newInst, h]
    have hkn : cache_key_name cls args = cache_key_name cls [] := by
      simp [cache_key_name, h]
    unfold current resolve
    rw [hmk, hni, hkn]

/-- Witness for C5's amended statement: both branches at concrete inputs —
a one-key subtype called with two arguments raises `TypeError`, and the
empty-`KEY_FIELDS` subtype called with one argument equals the
zero-argument call. -/
theorem C5_argument_count_witness :
    current courseCls ["X", "Y"] storeSeq ⟨[]⟩ 0 = .error "TypeError" ∧
    current thingCls ["extra"] { rows := [], nextId := 1 } ⟨[]⟩ 0 =
      current thingCls [] { rows := [], nextId := 1 } ⟨[]⟩ 0 :=
  ⟨(C5_argument_count courseCls ["X", "Y"] storeSeq ⟨[]⟩ 0).1 (by decide) (by decide),
   (C5_argument_count thingCls ["extra"] { rows := [], nextId := 1 } ⟨[]⟩ 0).2 (by decide)⟩

/-- C7: `fields_equal` with the default `fields_to_ignore` holds exactly
when every field that is neither many-to-many nor one of `id`,
`change_date`, `changed_by` has equal values on the two instances — so
instances differing only in the ignored fields or in many-to-many fields
compare equal, and a difference in any other field makes it `False`. -/
theorem C7_fields_equal_default_ignores (cls : ConfigClass) (a b : Inst) :
    fields_equal cls a b default_fields_to_ignore = true ↔
      ∀ p ∈ get_fields cls, p.2 = false → p.1 ∉ default_fields_to_ignore →
        getattr cls b p.1 = getattr cls a p.1 := by
  unfold fields_equal
  rw [List.all_eq_true]
  constructor
  · intro h p hp h2 hmem
    have hh := h p hp
    simp only [Bool.or_eq_true, beq_iff_eq] at hh
    rcases hh with (hh | hh) | hh
    · rw [h2] at hh
      exact absurd hh (by simp)
    · exact absurd (by simpa using hh) hmem
    · exact hh
  · intro h p hp
    simp only [Bool.or_eq_true, beq_iff_eq]
    by_cases h2 : p.2 = true
    · exact Or.inl (Or.inl h2)
    · by_cases hmem : p.1 ∈ default_fields_to_ignore
      · exact Or.inl (Or.inr (by simpa using hmem))
      · exact Or.inr (h p hp (by simpa using h2) hmem)

/-- C6: `equal_to_current` returns `True` only when the resolved current
entry for the candidate's key tuple is a persisted row (its id is set) and
every compared field of the candidate matches it; in particular, when no
row matching the candidate's key tuple has been stored (and none is
cached), the result is `False` — even for an all-defaults candidate. -/
theorem C6_equal_to_current_requires_persisted (cls : ConfigClass) (j : Json)
    (ign : List String) (st : Store) (c : Cache) (now : Nat) :
    (∀ b c₂, equal_to_current cls j ign st c now = .ok (b, c₂) → b = true →
      ∃ cur c₃, current cls (keyArgsOf cls (candidateOf cls j)) st c now =
          .ok (.inst cur, c₃) ∧
        cur.id.isSome = true ∧
        fields_equal cls cur (candidateOf cls j) ign = true) ∧
    (∀ key, cache_key_name cls (keyArgsOf cls (candidateOf cls j)) = .ok key →
      Cache.get c now key = none →
      st.rows.filter (fun r => matchesKey cls (keyArgsOf cls (candidateOf cls j)) r) = [] →
      ∃ c₂, equal_to_current cls j ign st c now = .ok (false, c₂)) := by
  constructor
  · intro b c₂ heq hb
    simp only [equal_to_current] at heq
    cases hc : current cls (keyArgsOf cls (candidateOf cls j)) st c now with
    | error e => rw [hc] at heq; exact absurd heq (by simp)
    | ok p =>
      obtain ⟨v, c₃⟩ := p
      rw [hc] at heq
      cases v with
      | kv w => simp [instOf] at heq
      | inst cur =>
        simp only [instOf] at heq
        by_cases hid : cur.id.isSome
        · rw [if_pos hid] at heq
          injection heq with heq
          injection heq with h1 h2
          refine ⟨cur, c₃, rfl, hid, ?_⟩
          rw [h1, hb]
        · rw [if_neg hid] at heq
          injection heq with heq
          injection heq with h1 h2
          rw [← h1] at hb
          exact absurd hb (by simp)
  · intro key hkey hmiss hempty
    have hcur := current_miss cls (keyArgsOf cls (candidateOf cls j)) st c now key hkey hmiss
    rw [resolve_of_empty _ _ _ hempty] at hcur
    refine ⟨Cache.set c key
      (.inst (newInst cls (keyArgsOf cls (candidateOf cls j)))) (now + cls.cache_timeout), ?_⟩
    simp only [equal_to_current]
    rw [hcur]
    simp [instOf, newInst]

/-- Witness for C6 at a concrete input: an empty store, where
`equal_to_current` answers `False` for an all-defaults candidate whose key
field carries `"X"`. -/
theorem C6_equal_to_current_requires_persisted_witness :
    ∃ c₂, equal_to_current courseCls { vals := [("course", "X")] }
        default_fields_to_ignore { rows := [], nextId := 1 } ⟨[]⟩ 0 = .ok (false, c₂) :=
  (C6_equal_to_current_requires_persisted courseCls { vals := [("course", "X")] }
      default_fields_to_ignore { rows := [], nextId := 1 } ⟨[]⟩ 0).2
    "configuration/Course/current/X" (by decide) (by decide) (by decide)

/-- C9: the cache key of `key_values` never involves the `flat` flag, so a
`flat=True` call issued within `cache_timeout` of a `flat=False` call (that
populated the cache on a miss) returns the first call's cached list of
tuples unchanged — and symmetrically a `flat=False` call after a cached
`flat=True` call returns the flat list. -/
theorem C9_key_values_ignores_flat (cls : ConfigClass) (kf : List String)
    (st st₂ : Store) (c : Cache) (now now' : Nat)
    (hmiss : Cache.get c now (key_values_cache_key_name cls kf) = none)
    (hlt : now' < now + cls.cache_timeout) :
    (∀ l c₂, key_values cls kf false st c now = .ok (.kv (.tuples l), c₂) →
      key_values cls kf true st₂ c₂ now' = .ok (.kv (.tuples l), c₂)) ∧
    (∀ l c₂, key_values cls kf true st c now = .ok (.kv (.flat l), c₂) →
      key_values cls kf false st₂ c₂ now' = .ok (.kv (.flat l), c₂)) := by
  constructor
  · intro l c₂ h
    simp only [key_values] at h
    rw [hmiss] at h
    cases hv : values_list cls (if kf.isEmpty then cls.KEY_FIELDS else kf) false st with
    | error e => rw [hv] at h; exact absurd h (by simp)
    | ok v =>
      rw [hv] at h
      injection h with h
      injection h with h1 h2
      simp only [key_values]
      rw [← h2, Cache.get_set_self _ _ _ _ now' hlt, h1]
  · intro l c₂ h
    simp only [key_values] at h
    rw [hmiss] at h
    cases hv : values_list cls (if kf.isEmpty then cls.KEY_FIELDS else kf) true st with
    | error e => rw [hv] at h; exact absurd h (by simp)
    | ok v =>
      rw [hv] at h
      injection h with h
      injection h with h1 h2
      simp only [key_values]
      rw [← h2, Cache.get_set_self _ _ _ _ now' hlt, h1]

/-- Witness for C9 at a concrete input: after `key_values(flat=False)` on
the course store cached `[["X"]]`, the `flat=True` call one instant later
returns that same list of tuples rather than a flat list. -/
theorem C9_key_values_ignores_flat_witness :
    key_values courseCls ["course"] true storeTie
      (Cache.set ⟨[]⟩ "configuration/Course/key_values/course"
        (.kv (.tuples [["X"]])) 600) 1 =
    .ok (.kv (.tuples [["X"]]),
         Cache.set ⟨[]⟩ "configuration/Course/key_values/course"
           (.kv (.tuples [["X"]])) 600) :=
  (C9_key_values_ignores_flat courseCls ["course"] storeTie storeTie ⟨[]⟩ 0 1
    (by decide) (by decide)).1 [["X"]]
    (Cache.set ⟨[]⟩ "configuration/Course/key_values/course"
      (.kv (.tuples [["X"]])) 600) (by decide)

/-- C10 fails on the code as stated: the comma-joined cache-key names of
two different key tuples can coincide — saving a row with key tuple
`("x,y", "z")` deletes the cache entry that served the distinct key tuple
`("x", "y,z")`, so a current-value entry of a different key tuple is not
left unchanged. -/
theorem C10_counterexample :
    cache_key_name pairCls ["x,y", "z"] = .ok "configuration/Pair/current/x,y,z" ∧
    cache_key_name pairCls ["x", "y,z"] = .ok "configuration/Pair/current/x,y,z" ∧
    (["x,y", "z"] : List String) ≠ ["x", "y,z"] ∧
    keyArgsOf pairCls otherInst = ["x", "y,z"] ∧
    Cache.lookup collidingCache "configuration/Pair/current/x,y,z" =
      some (.inst otherInst, 100) ∧
    save pairCls pairInst { rows := [], nextId := 1 } collidingCache 1 =
      .ok ({ pairInst with id := some 1, change_date := some 1 },
           { rows := [{ pairInst with id := some 1, change_date := some 1 }],
             nextId := 2 },
           ⟨[]⟩) := by
  decide

/-- C10 amended: `save` deletes at most two cache entries — the one under
the current-value name computed from the saved instance's key tuple and,
when `KEY_FIELDS` is non-empty, the one under the `key_values` name; every
entry under any other cache-key name is left unchanged.  (Two distinct key
tuples share one entry when their comma-joined representations coincide,
so the frame holds at the granularity of cache-key names, not of key
tuples.) -/
theorem C10_save_frame (cls : ConfigClass) (i : Inst) (st : Store) (c : Cache)
    (now : Nat) :
    ∃ saved st' c₂, save cls i st c now = .ok (saved, st', c₂) ∧
      ∀ key, cache_key_name cls (keyArgsOf cls saved) = .ok key →
        Cache.lookup c₂ key = none ∧
        (cls.KEY_FIELDS ≠ [] →
          Cache.lookup c₂ (key_values_cache_key_name cls []) = none) ∧
        (∀ nm : String, nm ≠ key → nm ≠ key_values_cache_key_name cls [] →
          Cache.lookup c₂ nm = Cache.lookup c nm) := by
  refine ⟨_, _, _, save_eq cls i st c now, ?_⟩
  intro key hkey
  rw [cache_key_name_eq cls _ (by simp [keyArgsOf])] at hkey
  injection hkey with hkey
  by_cases hk : cls.KEY_FIELDS = []
  · rw [if_neg (by simp [hk])]
    subst hkey
    exact ⟨Cache.lookup_delete_self _ _, fun hcon => absurd hk hcon,
      fun nm h1 _ => Cache.lookup_delete_ne _ _ _ h1⟩
  · rw [if_pos hk]
    subst hkey
    refine ⟨?_, fun _ => Cache.lookup_delete_self _ _, fun nm h1 h2 => ?_⟩
    · by_cases hkv : key_values_cache_key_name cls [] =
        currentKeyName cls (keyArgsOf cls { i with id := some st.nextId, change_date := some now })
      · rw [hkv]
        exact Cache.lookup_delete_self _ _
      · rw [Cache.lookup_delete_ne _ _ _ (fun hc => hkv hc.symm)]
        exact Cache.lookup_delete_self _ _
    · rw [Cache.lookup_delete_ne _ _ _ h2, Cache.lookup_delete_ne _ _ _ h1]

/-- C1 fails on the code as stated: with two rows sharing the key tuple and
a colliding `change_date`, `current` (on a cache miss) resolves the row
with id 1 — ties are NOT broken by id — while the `MAX(id)`-per-group
selection of `current_set` designates the row with id 2. -/
theorem C1_counterexample :
    current courseCls ["X"] storeTie ⟨[]⟩ 6 =
      .ok (.inst rowTieA,
           Cache.set ⟨[]⟩ "configuration/Course/current/X" (.inst rowTieA) 606) ∧
    rowTieA.id = some 1 ∧ rowTieB.id = some 2 ∧
    rowTieA.change_date = rowTieB.change_date ∧
    maxIdOf (storeTie.rows.filter (fun r => matchesKey courseCls ["X"] r)) = some 2 ∧
    currentIds courseCls storeTie = [2] ∧
    current_set courseCls storeTie = .ok [rowTieB] ∧
    rowTieB ≠ rowTieA := by
  decide

/-- C1 amended: provided id order agrees with `change_date` order on the
stored rows (in particular, no two rows of one key tuple collide in
`change_date`), `current` on a cache miss resolves, for a key tuple with at
least one stored row, exactly the matching row with the highest id — the
row the `MAX(id)`-per-group subquery designates and the one `current_set`
retains for that key tuple. -/
theorem C1_current_is_max_id_row (cls : ConfigClass) (args : List String)
    (st : Store) (c : Cache) (now : Nat)
    (hne : cls.KEY_FIELDS ≠ [])
    (hlen : args.length = cls.KEY_FIELDS.length)
    (hmiss : Cache.get c now (currentKeyName cls args) = none)
    (hmono : ∀ x ∈ st.rows, ∀ y ∈ st.rows, idD x < idD y → dateD x < dateD y)
    (hmatch : st.rows.filter (fun r => matchesKey cls args r) ≠ []) :
    ∃ r c₂, current cls args st c now = .ok (.inst r, c₂) ∧
      r ∈ st.rows ∧ matchesKey cls args r = true ∧
      (∀ x ∈ st.rows, matchesKey cls args x = true → idD x ≤ idD r) ∧
      idD r ∈ currentIds cls st ∧
      ∃ l, current_set cls st = .ok l ∧ r ∈ l := by
  have hkey := cache_key_name_eq cls args hlen
  cases hp : pickCurrent (st.rows.filter (fun r => matchesKey cls args r)) with
  | none => exact absurd (pickCurrent_eq_none.mp hp) hmatch
  | some r =>
    have hcur := current_miss cls args st c now _ hkey hmiss
    rw [resolve_of_pick cls args st r hp] at hcur
    have hrmem := pickCurrent_mem hp
    have hrrows : r ∈ st.rows := (List.mem_filter.mp hrmem).1
    have hrmatch : matchesKey cls args r = true := (List.mem_filter.mp hrmem).2
    have hmax : ∀ x ∈ st.rows, matchesKey cls args x = true → idD x ≤ idD r := by
      intro x hx hm
      by_contra hcon
      push_neg at hcon
      have hd := hmono r hrrows x hx hcon
      have hle := pickCurrent_le hp x (List.mem_filter.mpr ⟨hx, hm⟩)
      omega
    have hkeyOfr : keyOf cls r = args.map Val.vstr :=
      (matchesKey_iff cls args r hlen).mp hrmatch
    have hgroup : st.rows.filter (fun x => keyOf cls x == keyOf cls r) =
        st.rows.filter (fun x => matchesKey cls args x) := by
      apply List.filter_congr
      intro x _
      cases hmx : matchesKey cls args x with
      | true =>
        have hkx := (matchesKey_iff cls args x hlen).mp hmx
        simp [hkx, hkeyOfr]
      | false =>
        have hne2 : keyOf cls x ≠ args.map Val.vstr := fun hc => by
          rw [(matchesKey_iff cls args x hlen).mpr hc] at hmx
          exact Bool.noConfusion hmx
        rw [hkeyOfr]
        exact beq_eq_false_iff_ne.mpr hne2
    have hmaxid : maxIdOf (st.rows.filter (fun x => keyOf cls x == keyOf cls r)) =
        some (idD r) := by
      rw [hgroup]
      exact maxIdOf_eq (List.mem_filter.mpr ⟨hrrows, hrmatch⟩)
        (fun x hx => hmax x (List.mem_filter.mp hx).1 (List.mem_filter.mp hx).2)
    have hids : idD r ∈ currentIds cls st := by
      unfold currentIds
      exact List.mem_filterMap.mpr
        ⟨keyOf cls r, List.mem_dedup.mpr (List.mem_map_of_mem _ hrrows), hmaxid⟩
    have hcs : current_set cls st =
        .ok (st.rows.filter (fun x => (currentIds cls st).contains (idD x))) := by
      simp [current_set, hne]
    refine ⟨r, _, hcur, hrrows, hrmatch, hmax, hids, _, hcs, ?_⟩
    exact List.mem_filter.mpr ⟨hrrows, by simpa using hids⟩

/-- Witness for C1's amended statement: two rows with strictly increasing
ids and dates — `current` resolves the id-2 row, the grouped-maximum
designee. -/
theorem C1_current_is_max_id_row_witness :
    ∃ r c₂, current courseCls ["X"] storeSeq ⟨[]⟩ 0 = .ok (.inst r, c₂) ∧
      r ∈ storeSeq.rows ∧ matchesKey courseCls ["X"] r = true ∧
      (∀ x ∈ storeSeq.rows, matchesKey courseCls ["X"] x = true → idD x ≤ idD r) ∧
      idD r ∈ currentIds courseCls storeSeq ∧
      ∃ l, current_set courseCls storeSeq = .ok l ∧ r ∈ l :=
  C1_current_is_max_id_row courseCls ["X"] storeSeq ⟨[]⟩ 0 (by decide) (by decide)
    (by decide) (by decide) (by decide)

/-- C2 fails on the code as stated: two saves to the same key tuple whose
`auto_now_add` timestamps collide (same insertion instant) leave `current`
returning the FIRST write's values — `order_by('-change_date')` has no
secondary ordering, so the second write is not guaranteed to win. -/
theorem C2_counterexample :
    save courseCls writeOne { rows := [], nextId := 1 } ⟨[]⟩ 5 =
      .ok (rowTieA, { rows := [rowTieA], nextId := 2 }, ⟨[]⟩) ∧
    save courseCls writeTwo { rows := [rowTieA], nextId := 2 } ⟨[]⟩ 5 =
      .ok (rowTieB, storeTie, ⟨[]⟩) ∧
    current courseCls ["X"] storeTie ⟨[]⟩ 5 =
      .ok (.inst rowTieA,
           Cache.set ⟨[]⟩ "configuration/Course/current/X" (.inst rowTieA) 605) ∧
    rowTieA.enabled = true ∧ rowTieB.enabled = false := by
  decide

/-- C2 amended: provided the save's insertion timestamp strictly exceeds
the `change_date` of every already-stored row sharing the key tuple (no
timestamp collision), `current` called any time after the save — the cache
entry having been evicted synchronously — performs a fresh database lookup
and returns exactly the just-saved row's values, never an earlier
write's. -/
theorem C2_current_after_save (cls : ConfigClass) (i : Inst) (st : Store)
    (c : Cache) (t : Nat)
    (hplain : ∀ f ∈ cls.KEY_FIELDS, plainField cls f)
    (hfresh : ∀ r ∈ st.rows, matchesKey cls (keyArgsOf cls i) r = true → dateD r < t) :
    ∃ saved st' c₂, save cls i st c t = .ok (saved, st', c₂) ∧
      saved = { i with id := some st.nextId, change_date := some t } ∧
      ∀ t', ∃ c₃, current cls (keyArgsOf cls i) st' c₂ t' = .ok (.inst saved, c₃) := by
  refine ⟨_, _, _, save_eq cls i st c t, rfl, ?_⟩
  intro t'
  have hargs : keyArgsOf cls { i with id := some st.nextId, change_date := some t } =
      keyArgsOf cls i := keyArgsOf_update cls i _ _ hplain
  rw [hargs]
  have hlen : (keyArgsOf cls i).length = cls.KEY_FIELDS.length := by simp [keyArgsOf]
  have hkey := cache_key_name_eq cls (keyArgsOf cls i) hlen
  have hmiss : Cache.get
      (if cls.KEY_FIELDS ≠ [] then
        Cache.delete (Cache.delete c (currentKeyName cls (keyArgsOf cls i)))
          (key_values_cache_key_name cls [])
      else Cache.delete c (currentKeyName cls (keyArgsOf cls i))) t'
      (currentKeyName cls (keyArgsOf cls i)) = none := by
    by_cases hk : cls.KEY_FIELDS = []
    · rw [if_neg (by simp [hk])]
      exact Cache.get_delete_self _ _ _
    · rw [if_pos hk]
      apply Cache.get_of_lookup_none
      by_cases hkv : key_values_cache_key_name cls [] = currentKeyName cls (keyArgsOf cls i)
      · rw [hkv]
        exact Cache.lookup_delete_self _ _
      · rw [Cache.lookup_delete_ne _ _ _ fun hc => hkv hc.symm]
        exact Cache.lookup_delete_self _ _
  have hcur := current_miss cls (keyArgsOf cls i)
    { rows := st.rows ++ [{ i with id := some st.nextId, change_date := some t }],
      nextId := st.nextId + 1 }
    (if cls.KEY_FIELDS ≠ [] then
      Cache.delete (Cache.delete c (currentKeyName cls (keyArgsOf cls i)))
        (key_values_cache_key_name cls [])
    else Cache.delete c (currentKeyName cls (keyArgsOf cls i)))
    t' (currentKeyName cls (keyArgsOf cls i)) hkey hmiss
  have hmk : matchesKey cls (keyArgsOf cls i)
      { i with id := some st.nextId, change_date := some t } = true := by
    rw [← hargs]
    exact matchesKey_keyArgsOf cls _ hplain
  have hfilter : (st.rows ++ [{ i with id := some st.nextId, change_date := some t }]).filter
      (fun r => matchesKey cls (keyArgsOf cls i) r) =
      st.rows.filter (fun r => matchesKey cls (keyArgsOf cls i) r) ++
        [{ i with id := some st.nextId, change_date := some t }] := by
    rw [List.filter_append]
    simp [hmk]
  have hpick : pickCurrent
      ((st.rows ++ [{ i with id := some st.nextId, change_date := some t }]).filter
        (fun r => matchesKey cls (keyArgsOf cls i) r)) =
      some { i with id := some st.nextId, change_date := some t } := by
    rw [hfilter]
    apply pickCurrent_append_strict
    intro x hx
    have hx' := List.mem_filter.mp hx
    have hlt := hfresh x hx'.1 hx'.2
    simpa [dateD] using hlt
  have hres := resolve_of_pick cls (keyArgsOf cls i)
    { rows := st.rows ++ [{ i with id := some st.nextId, change_date := some t }],
      nextId := st.nextId + 1 }
    { i with id := some st.nextId, change_date := some t } hpick
  rw [hres] at hcur
  exact ⟨_, hcur⟩

/-- Witness for C2's amended statement: a second write at instant 2 over a
row stored at instant 1 — `current` returns the second write. -/
theorem C2_current_after_save_witness :
    ∃ saved st' c₂,
      save courseCls writeTwo { rows := [rowSeqA], nextId := 2 } ⟨[]⟩ 2 =
        .ok (saved, st', c₂) ∧
      saved = { writeTwo with id := some 2, change_date := some 2 } ∧
      ∀ t', ∃ c₃, current courseCls (keyArgsOf courseCls writeTwo) st' c₂ t' =
        .ok (.inst saved, c₃) :=
  C2_current_after_save courseCls writeTwo { rows := [rowSeqA], nextId := 2 } ⟨[]⟩ 2
    (by decide) (by decide)

/-- C8: for a keyed subtype (`KEY_FIELDS` non-empty — the claim speaks of
key tuples), `key_values()` (default arguments) on a cache miss returns the
distinct key combinations over every stored row — every row's key tuple
occurs in the result and every returned tuple comes from some stored row,
current or not, enabled or not — and each returned tuple resolves through
`current` (against the same store) to a persisted row. -/
theorem C8_key_values_covers_all_rows (cls : ConfigClass) (st : Store) (c : Cache)
    (now : Nat)
    (hkf : cls.KEY_FIELDS ≠ [])
    (hplain : ∀ f ∈ cls.KEY_FIELDS, plainField cls f)
    (hstore : ∀ r ∈ st.rows, r.id.isSome = true)
    (hmiss : Cache.get c now (key_values_cache_key_name cls []) = none) :
    ∃ vals c₂, key_values cls [] false st c now = .ok (.kv (.tuples vals), c₂) ∧
      (∀ r ∈ st.rows, keyArgsOf cls r ∈ vals) ∧
      (∀ tp ∈ vals, ∃ r ∈ st.rows, keyArgsOf cls r = tp) ∧
      (∀ tp ∈ vals, ∃ r c₃, current cls tp st ⟨[]⟩ now = .ok (.inst r, c₃) ∧
        r.id.isSome = true) := by
  refine ⟨(st.rows.map (fun r => keyArgsOf cls r)).dedup,
    Cache.set c (key_values_cache_key_name cls [])
      (.kv (.tuples ((st.rows.map (fun r => keyArgsOf cls r)).dedup)))
      (now + cls.cache_timeout), ?_, ?_, ?_, ?_⟩
  · have hie : cls.KEY_FIELDS.isEmpty = false := by
      cases hk : cls.KEY_FIELDS with
      | nil => exact absurd hk hkf
      | cons a l => rfl
    simp only [key_values, values_list, keyArgsOf, List.isEmpty_nil, hie, hmiss]
    simp [hkf]
  · intro r hr
    exact List.mem_dedup.mpr (List.mem_map_of_mem _ hr)
  · intro tp htp
    exact List.mem_map.mp (List.mem_dedup.mp htp)
  · intro tp htp
    rcases List.mem_map.mp (List.mem_dedup.mp htp) with ⟨r, hr, hreq⟩
    have hlen : tp.length = cls.KEY_FIELDS.length := by
      rw [← hreq]
      simp [keyArgsOf]
    have hkey := cache_key_name_eq cls tp hlen
    have hm : Cache.get (⟨[]⟩ : Cache) now (currentKeyName cls tp) = none := rfl
    have hcur := current_miss cls tp st ⟨[]⟩ now _ hkey hm
    have hmk : matchesKey cls tp r = true := by
      rw [← hreq]
      exact matchesKey_keyArgsOf cls r hplain
    have hrf : r ∈ st.rows.filter (fun x => matchesKey cls tp x) :=
      List.mem_filter.mpr ⟨hr, hmk⟩
    have hfne : st.rows.filter (fun x => matchesKey cls tp x) ≠ [] :=
      List.ne_nil_of_mem hrf
    cases hp : pickCurrent (st.rows.filter (fun x => matchesKey cls tp x)) with
    | none => exact absurd (pickCurrent_eq_none.mp hp) hfne
    | some r' =>
      have hres := resolve_of_pick cls tp st r' hp
      rw [hres] at hcur
      have hr' : r' ∈ st.rows := (List.mem_filter.mp (pickCurrent_mem hp)).1
      exact ⟨r', _, hcur, hstore r' hr'⟩

/-- Witness for C8 at a concrete input: the tie store, whose current entry
for course `X` has `enabled=False`, still yields `X` in `key_values`. -/
theorem C8_key_values_covers_all_rows_witness :
    ∃ vals c₂,
      key_values courseCls [] false storeTie ⟨[]⟩ 0 = .ok (.kv (.tuples vals), c₂) ∧
      (∀ r ∈ storeTie.rows, keyArgsOf courseCls r ∈ vals) ∧
      (∀ tp ∈ vals, ∃ r ∈ storeTie.rows, keyArgsOf courseCls r = tp) ∧
      (∀ tp ∈ vals, ∃ r c₃, current courseCls tp storeTie ⟨[]⟩ 0 = .ok (.inst r, c₃) ∧
        r.id.isSome = true) :=
  C8_key_values_covers_all_rows courseCls storeTie ⟨[]⟩ 0 (by decide) (by decide)
    (by decide) (by decide)

/-- Witness for C10's amended statement at a concrete input. -/
theorem C10_save_frame_witness :
    ∃ saved st' c₂,
      save pairCls pairInst { rows := [], nextId := 1 } collidingCache 1 =
        .ok (saved, st', c₂) ∧
      ∀ key, cache_key_name pairCls (keyArgsOf pairCls saved) = .ok key →
        Cache.lookup c₂ key = none ∧
        (pairCls.KEY_FIELDS ≠ [] →
          Cache.lookup c₂ (key_values_cache_key_name pairCls []) = none) ∧
        (∀ nm : String, nm ≠ key → nm ≠ key_values_cache_key_name pairCls [] →
          Cache.lookup c₂ nm = Cache.lookup collidingCache nm) :=
  C10_save_frame pairCls pairInst { rows := [], nextId := 1 } collidingCache 1

end ConfigModels
